import Mathlib

/-!
Shallow embedding of `scripts/extract-opcodes.py` (the repository's single
source file, 14 lines).  The script reads a header file, splits its contents
on newline characters, strips each line, matches it against the anchored
regular expression

    (?:DEF|def)\s*\(\s*(\w+)\s*,\s*(\d+)\s*,\s*(-?\d+)\s*,\s*(-?\d+)\s*,\s*(\w+)

and, for each match, prints one tab-separated record built from a running
counter `idx` and the five captured groups, then increments the counter.

The embedding works over `List Char`.  Character classes model the ASCII
behaviour of the regex classes.  Every quantifier in the pattern is
deterministic (each greedy `\s*`, `\w+`, `\d+` is followed by a character it
can never match, and the two alternation branches `DEF` / `def` exclude each
other), so Python's backtracking matcher is equivalent to the maximal-munch
parser `reMatchR` below; its `rest` component is the text left over after the
fifth captured group, mirroring the fact that the pattern is not anchored at
the end of the line.
-/

/-- ASCII model of the regex word class (letters, digits, underscore). -/
def isWordChar (c : Char) : Bool := c.isAlphanum || c == '_'

/-- ASCII model of the regex whitespace class and of the characters removed
by Python's `str.strip` (line 9 of the script). -/
def isSpaceChar (c : Char) : Bool :=
  c == ' ' || c == '\t' || c == '\n' || c == '\r' || c == '\x0B' || c == '\x0C'

/-- ASCII model of the regex digit class. -/
def isDigitChar (c : Char) : Bool := c.isDigit

/-- Removes trailing whitespace characters. -/
def stripTrailing (cs : List Char) : List Char :=
  (cs.reverse.dropWhile isSpaceChar).reverse

/-- Model of Python `line.strip()` (line 9): removes leading and trailing
whitespace. -/
def pyStrip (cs : List Char) : List Char :=
  stripTrailing (cs.dropWhile isSpaceChar)

/-- Greedy `\s*`. -/
def dropSpaces (cs : List Char) : List Char := cs.dropWhile isSpaceChar

/-- The alternation `(?:DEF|def)`: consumes exactly the three leading
characters when they are exactly `DEF` or exactly `def`. -/
def parseToken (cs : List Char) : Option (List Char) :=
  match cs with
  | c1 :: c2 :: c3 :: rest =>
      if (c1 = 'D' ∧ c2 = 'E' ∧ c3 = 'F') ∨ (c1 = 'd' ∧ c2 = 'e' ∧ c3 = 'f') then some rest
      else none
  | _ => none

/-- A single literal character of the pattern (`\(` or `,`). -/
def expectChar (c : Char) (cs : List Char) : Option (List Char) :=
  match cs with
  | [] => none
  | x :: rest => if x = c then some rest else none

/-- Greedy one-or-more repetition of a character class, capturing the maximal
nonempty run. -/
def spanGroup (p : Char → Bool) (cs : List Char) : Option (List Char × List Char) :=
  if cs.takeWhile p = [] then none
  else some (cs.takeWhile p, cs.dropWhile p)

/-- Greedy `(\w+)`: captures the maximal nonempty run of word characters. -/
def parseWord (cs : List Char) : Option (List Char × List Char) :=
  spanGroup isWordChar cs

/-- Greedy `(\d+)`: captures the maximal nonempty run of digits. -/
def parseDigits (cs : List Char) : Option (List Char × List Char) :=
  spanGroup isDigitChar cs

/-- Greedy `(-?\d+)`: an optional minus sign followed by digits; the sign is
part of the captured text. -/
def parseSigned (cs : List Char) : Option (List Char × List Char) :=
  match cs with
  | '-' :: rest =>
      match parseDigits rest with
      | some p => some ('-' :: p.1, p.2)
      | none => none
  | _ => parseDigits cs

/-- The five captured groups of the pattern, in source order:
`name, size, npop, npush, fmt` (line 12 of the script). -/
structure MatchGroups where
  name : List Char
  size : List Char
  npop : List Char
  npush : List Char
  fmt : List Char
deriving DecidableEq, Repr

/-- The whole pattern, applied at the start of a (stripped) line, as
`re.match` does (line 10).  Returns the captured groups together with the
unconsumed remainder of the line (the pattern has no end anchor). -/
def reMatchR (cs : List Char) : Option (MatchGroups × List Char) :=
  (parseToken cs).bind fun s1 =>
  (expectChar '(' (dropSpaces s1)).bind fun s2 =>
  (parseWord (dropSpaces s2)).bind fun p1 =>
  (expectChar ',' (dropSpaces p1.2)).bind fun s4 =>
  (parseDigits (dropSpaces s4)).bind fun p2 =>
  (expectChar ',' (dropSpaces p2.2)).bind fun s6 =>
  (parseSigned (dropSpaces s6)).bind fun p3 =>
  (expectChar ',' (dropSpaces p3.2)).bind fun s8 =>
  (parseSigned (dropSpaces s8)).bind fun p4 =>
  (expectChar ',' (dropSpaces p4.2)).bind fun s10 =>
  (parseWord (dropSpaces s10)).bind fun p5 =>
  some (MatchGroups.mk p1.1 p2.1 p3.1 p4.1 p5.1, p5.2)

/-- Lines 9-10 of the script: strip the raw line, then match.  `some g`
exactly when `if m:` is taken, with `g` the tuple `m.groups()`. -/
def lineMatch (cs : List Char) : Option MatchGroups :=
  Option.map Prod.fst (reMatchR (pyStrip cs))

/-- Model of Python `str.split` on a one-character separator (line 8 splits
the file contents on a newline): keeps empty pieces, and the empty input
yields one empty piece. -/
def splitOnC (sep : Char) : List Char → List (List Char)
  | [] => [[]]
  | c :: cs =>
      if c = sep then [] :: splitOnC sep cs
      else
        match splitOnC sep cs with
        | [] => [[c]]
        | r :: rs => (c :: r) :: rs

/-- Decimal digit character for a value below 10. -/
def decChar (n : Nat) : Char := Char.ofNat (48 + n)

/-- Uppercase hexadecimal digit character for a value below 16, as produced
by the format specifier `X`. -/
def hexChar (n : Nat) : Char :=
  if n < 10 then Char.ofNat (48 + n) else Char.ofNat (55 + n)

/-- Decimal rendering with explicit fuel (structural recursion so that
concrete instances evaluate inside the kernel); correct whenever `n < f`. -/
def natDecAux : Nat → Nat → List Char
  | 0, _ => []
  | f + 1, n => if n < 10 then [decChar n] else natDecAux f (n / 10) ++ [decChar (n % 10)]

/-- Decimal rendering of a natural number, as the f-string field `idx`. -/
def natDec (n : Nat) : List Char := natDecAux (n + 1) n

/-- Uppercase hexadecimal rendering with explicit fuel; correct whenever
`n < f`. -/
def natHexAux : Nat → Nat → List Char
  | 0, _ => []
  | f + 1, n => if n < 16 then [hexChar n] else natHexAux f (n / 16) ++ [hexChar (n % 16)]

/-- Uppercase hexadecimal rendering of a natural number (format `X`). -/
def natHexF (n : Nat) : List Char := natHexAux (n + 1) n

/-- Zero padding to a minimal width of two characters (format `02`). -/
def pad2 (ds : List Char) : List Char :=
  if ds.length < 2 then List.replicate (2 - ds.length) '0' ++ ds else ds

/-- Line 13 of the script: the f-string
`idx TAB 0x idx:02X TAB OP_ name TAB size= size TAB pop= npop TAB push= npush TAB fmt= fmt`
rendered as a list of characters. -/
def formatRecord (idx : Nat) (g : MatchGroups) : List Char :=
  natDec idx ++ '\t' ::
  ('0' :: 'x' :: pad2 (natHexF idx) ++ '\t' ::
  ('O' :: 'P' :: '_' :: g.name ++ '\t' ::
  ("size=".toList ++ g.size ++ '\t' ::
  ("pop=".toList ++ g.npop ++ '\t' ::
  ("push=".toList ++ g.npush ++ '\t' ::
  ("fmt=".toList ++ g.fmt))))))

/-- Lines 7-14 of the script: the loop over the split lines, carrying the
running counter `idx`.  A matching line emits one record and increments the
counter; a non-matching line emits nothing and leaves it unchanged. -/
def extractAux : Nat → List (List Char) → List (List Char)
  | _, [] => []
  | idx, l :: ls =>
      match lineMatch l with
      | some g => formatRecord idx g :: extractAux (idx + 1) ls
      | none => extractAux idx ls

/-- The whole pure computation of the script: file contents in, the list of
printed lines out. -/
def extractOpcodes (input : List Char) : List (List Char) :=
  extractAux 0 (splitOnC '\n' input)

/-- The loop of lines 7-14 viewed at the record level: the pairs
`(idx, groups)` that the loop prints, before formatting. -/
def recordsAux : Nat → List (List Char) → List (Nat × MatchGroups)
  | _, [] => []
  | idx, l :: ls =>
      match lineMatch l with
      | some g => (idx, g) :: recordsAux (idx + 1) ls
      | none => recordsAux idx ls

/-- The records emitted for a whole input. -/
def records (input : List Char) : List (Nat × MatchGroups) :=
  recordsAux 0 (splitOnC '\n' input)

/-- The tab-separated fields of an output line. -/
def tabFields (cs : List Char) : List (List Char) := splitOnC '\t' cs

/-- Outcome of one run of the script at the process level. -/
inductive RunOutcome where
  | success (outLines : List (List Char))
  | ioFailure
deriving DecidableEq

/-- Lines 4-5 of the script: `open` / `read` of the fixed input path either
yields the file contents (`some contents`) or raises an OSError that nothing
catches, terminating the process with a failure status before any output is
produced (`none`).  The rest of the run (lines 7-14) is total. -/
def runProgram : Option (List Char) → RunOutcome
  | none => RunOutcome.ioFailure
  | some contents => RunOutcome.success (extractOpcodes contents)

/-- Uppercase hexadecimal digit predicate (for stating that rendered hex
text is two-or-more uppercase hex digits). -/
def isUpperHexDigit (c : Char) : Bool := c.isDigit || ('A' ≤ c && c ≤ 'F')

/-- Value of an uppercase hexadecimal digit character. -/
def hexVal (c : Char) : Nat := if 65 ≤ c.toNat then c.toNat - 55 else c.toNat - 48

/-- Decodes a string of uppercase hexadecimal digits (most significant
first); used to state that the hex rendering truncates nothing. -/
def fromHex (ds : List Char) : Nat := ds.foldl (fun a c => 16 * a + hexVal c) 0

/-! ### Generic list helpers -/

theorem mem_takeWhileP {α : Type} (p : α → Bool) :
    ∀ (l : List α) (c : α), c ∈ l.takeWhile p → p c = true := by
  intro l
  induction l with
  | nil => intro c hc; simp [List.takeWhile] at hc
  | cons x xs ih =>
      intro c hc
      rw [List.takeWhile_cons] at hc
      by_cases hx : p x
      · simp only [hx, if_true, List.mem_cons] at hc
        rcases hc with rfl | hc
        · exact hx
        · exact ih c hc
      · simp [hx] at hc

theorem takeWhile_all_of_dropWhile_nil {α : Type} {p : α → Bool} {l : List α}
    (h : l.dropWhile p = []) : l.takeWhile p = l := by
  have := List.takeWhile_append_dropWhile (p := p) (l := l)
  rw [h, List.append_nil] at this
  exact this

theorem all_p_of_dropWhile_nil {α : Type} {p : α → Bool} {l : List α}
    (h : l.dropWhile p = []) : ∀ a ∈ l, p a = true := by
  intro a ha
  apply mem_takeWhileP p l a
  rw [takeWhile_all_of_dropWhile_nil h]
  exact ha

theorem dropWhile_app_stop {α : Type} (p : α → Bool) (l t : List α)
    (h : l.dropWhile p ≠ []) : (l ++ t).dropWhile p = l.dropWhile p ++ t := by
  rw [List.dropWhile_append, if_neg]
  simpa [List.isEmpty_iff] using h

theorem takeWhile_app_stop {α : Type} (p : α → Bool) (l t : List α)
    (h : l.dropWhile p ≠ []) : (l ++ t).takeWhile p = l.takeWhile p := by
  rw [List.takeWhile_append, if_neg]
  intro hlen
  apply h
  have hsum : (l.takeWhile p).length + (l.dropWhile p).length = l.length := by
    conv_rhs => rw [← List.takeWhile_append_dropWhile (p := p) (l := l)]
    rw [List.length_append]
  rw [hlen] at hsum
  have : (l.dropWhile p).length = 0 := by omega
  exact List.eq_nil_of_length_eq_zero this

theorem takeWhile_app_all {α : Type} (p : α → Bool) (l t : List α)
    (h : l.dropWhile p = []) : (l ++ t).takeWhile p = l ++ t.takeWhile p :=
  List.takeWhile_append_of_pos (all_p_of_dropWhile_nil h)

theorem dropWhile_app_all {α : Type} (p : α → Bool) (l t : List α)
    (h : l.dropWhile p = []) : (l ++ t).dropWhile p = t.dropWhile p :=
  List.dropWhile_append_of_pos (all_p_of_dropWhile_nil h)

theorem zip_fst_snd {α β : Type} : ∀ (l : List (α × β)),
    List.zip (l.map Prod.fst) (l.map Prod.snd) = l := by
  intro l
  induction l with
  | nil => rfl
  | cons x xs ih => simp [List.zip_cons_cons, ih]

/-! ### Stripping -/

theorem stripTrailing_cons (c : Char) (cs : List Char) (h : isSpaceChar c = false) :
    stripTrailing (c :: cs) = c :: stripTrailing cs := by
  unfold stripTrailing
  rw [List.reverse_cons, List.dropWhile_append]
  by_cases hd : (cs.reverse.dropWhile isSpaceChar).isEmpty
  · have hnil : cs.reverse.dropWhile isSpaceChar = [] := by
      simpa [List.isEmpty_iff] using hd
    rw [if_pos hd, hnil]
    simp [List.dropWhile, h]
  · rw [if_neg hd, List.reverse_append]
    simp

theorem pyStrip_cons (c : Char) (cs : List Char) (h : isSpaceChar c = false) :
    pyStrip (c :: cs) = c :: stripTrailing cs := by
  unfold pyStrip
  rw [List.dropWhile_cons, if_neg (by simp [h]), stripTrailing_cons c cs h]

/-! ### Splitting -/

theorem splitOnC_not_mem (sep : Char) (a : List Char) (h : sep ∉ a) :
    splitOnC sep a = [a] := by
  induction a with
  | nil => rfl
  | cons c cs ih =>
      have hc : ¬c = sep := by
        intro e; exact h (e ▸ List.mem_cons_self c cs)
      have hcs : sep ∉ cs := fun hm => h (List.mem_cons_of_mem _ hm)
      rw [splitOnC, if_neg hc, ih hcs]

theorem splitOnC_app (sep : Char) (a b : List Char) (h : sep ∉ a) :
    splitOnC sep (a ++ sep :: b) = a :: splitOnC sep b := by
  induction a with
  | nil => simp [splitOnC]
  | cons c cs ih =>
      have hc : ¬c = sep := by
        intro e; exact h (e ▸ List.mem_cons_self c cs)
      have hcs : sep ∉ cs := fun hm => h (List.mem_cons_of_mem _ hm)
      rw [List.cons_append, splitOnC, if_neg hc, ih hcs]

/-! ### Combinator inversions and append-extension lemmas -/

theorem dropWhile_eq_self_of_takeWhile_nil {α : Type} {p : α → Bool} {l : List α}
    (h : l.takeWhile p = []) : l.dropWhile p = l := by
  have := List.takeWhile_append_dropWhile (p := p) (l := l)
  rw [h, List.nil_append] at this
  exact this

theorem parseToken_inv {cs s1 : List Char} (h : parseToken cs = some s1) :
    cs = 'D' :: 'E' :: 'F' :: s1 ∨ cs = 'd' :: 'e' :: 'f' :: s1 := by
  match cs with
  | [] => simp [parseToken] at h
  | [c1] => simp [parseToken] at h
  | [c1, c2] => simp [parseToken] at h
  | c1 :: c2 :: c3 :: rest =>
      simp only [parseToken] at h
      split at h
      · rename_i hcond
        injection h with h
        subst h
        rcases hcond with ⟨rfl, rfl, rfl⟩ | ⟨rfl, rfl, rfl⟩
        · exact Or.inl rfl
        · exact Or.inr rfl
      · exact absurd h (by simp)

theorem parseToken_app {cs s1 : List Char} (t : List Char)
    (h : parseToken cs = some s1) : parseToken (cs ++ t) = some (s1 ++ t) := by
  rcases parseToken_inv h with rfl | rfl <;> simp [parseToken]

theorem expectChar_inv {c : Char} {cs r : List Char} (h : expectChar c cs = some r) :
    cs = c :: r := by
  match cs with
  | [] => simp [expectChar] at h
  | x :: rest =>
      simp only [expectChar] at h
      split at h
      · rename_i hx
        injection h with h
        rw [hx, h]
      · exact absurd h (by simp)

theorem expectChar_app {c : Char} {cs r : List Char} (t : List Char)
    (h : expectChar c cs = some r) : expectChar c (cs ++ t) = some (r ++ t) := by
  rw [expectChar_inv h]
  simp [expectChar]

theorem spanGroup_inv {p : Char → Bool} {cs w r : List Char}
    (h : spanGroup p cs = some (w, r)) :
    w = cs.takeWhile p ∧ r = cs.dropWhile p ∧ w ≠ [] := by
  unfold spanGroup at h
  split at h
  · exact absurd h (by simp)
  · rename_i hne
    injection h with h
    injection h with h1 h2
    exact ⟨h1.symm, h2.symm, by rw [← h1]; exact hne⟩

theorem spanGroup_mem {p : Char → Bool} {cs w r : List Char}
    (h : spanGroup p cs = some (w, r)) : ∀ c ∈ w, p c = true := by
  obtain ⟨hw, -, -⟩ := spanGroup_inv h
  intro c hc
  exact mem_takeWhileP p cs c (hw ▸ hc)

theorem spanGroup_app {p : Char → Bool} {cs w r : List Char} (t : List Char)
    (h : spanGroup p cs = some (w, r))
    (hside : r ≠ [] ∨ t.takeWhile p = []) :
    spanGroup p (cs ++ t) = some (w, r ++ t) := by
  obtain ⟨hw, hr, hne⟩ := spanGroup_inv h
  by_cases hd : cs.dropWhile p = []
  · rcases hside with hrr | ht
    · exact absurd (hr.trans hd) hrr
    · unfold spanGroup
      have hcseq : cs.takeWhile p = cs := takeWhile_all_of_dropWhile_nil hd
      have hcs : ¬(cs ++ t).takeWhile p = [] := by
        rw [takeWhile_app_all p cs t hd, ht, List.append_nil]
        intro e
        exact hne (by rw [hw, hcseq, e])
      rw [if_neg hcs, takeWhile_app_all p cs t hd, ht, List.append_nil,
        dropWhile_app_all p cs t hd, dropWhile_eq_self_of_takeWhile_nil ht,
        hw, hcseq, hr, hd, List.nil_append]
  · unfold spanGroup
    rw [takeWhile_app_stop p cs t hd, dropWhile_app_stop p cs t hd]
    rw [if_neg (hw ▸ hne), hw, hr]

theorem parseSigned_cons_ne {c : Char} {x : List Char} (hc : ¬c = '-') :
    parseSigned (c :: x) = parseDigits (c :: x) := by
  unfold parseSigned
  split
  · rename_i heq
    injection heq with h1 h2
    exact absurd h1 hc
  · rfl

theorem parseSigned_inv {cs w r : List Char} (h : parseSigned cs = some (w, r)) :
    w ≠ [] ∧ (∀ c ∈ w, c = '-' ∨ isDigitChar c = true) := by
  unfold parseSigned at h
  split at h
  · rename_i rest
    cases hq : parseDigits rest with
    | none => rw [hq] at h; exact absurd h (by simp)
    | some q =>
        rw [hq] at h
        injection h with h
        injection h with h1 h2
        constructor
        · rw [← h1]; simp
        · intro c hc
          rw [← h1] at hc
          rcases List.mem_cons.mp hc with rfl | hc
          · exact Or.inl rfl
          · exact Or.inr (spanGroup_mem (p := isDigitChar) (by rw [← hq]; rfl) c
              (by rw [show q.1 = (q.1, q.2).1 from rfl] at hc ⊢; exact hc))
  · constructor
    · exact (spanGroup_inv h).2.2
    · intro c hc
      exact Or.inr (spanGroup_mem h c hc)

theorem parseSigned_cons_dash (x : List Char) :
    parseSigned ('-' :: x) =
      match parseDigits x with
      | some p => some ('-' :: p.1, p.2)
      | none => none := rfl

theorem spanGroup_arg_ne_nil {p : Char → Bool} {cs w r : List Char}
    (h : spanGroup p cs = some (w, r)) : cs ≠ [] := by
  obtain ⟨hw, -, hne⟩ := spanGroup_inv h
  intro e
  subst e
  simp only [List.takeWhile_nil] at hw
  exact hne hw

theorem ne_nil_of_dropSpaces_cons {cs r : List Char} {c : Char}
    (h : dropSpaces cs = c :: r) : cs ≠ [] := by
  intro e
  subst e
  simp [dropSpaces] at h

theorem dropSpaces_app {cs : List Char} (t : List Char) (h : dropSpaces cs ≠ []) :
    dropSpaces (cs ++ t) = dropSpaces cs ++ t :=
  dropWhile_app_stop isSpaceChar cs t h

theorem parseSigned_app {cs w r : List Char} (t : List Char)
    (h : parseSigned cs = some (w, r))
    (hside : r ≠ [] ∨ t.takeWhile isDigitChar = []) :
    parseSigned (cs ++ t) = some (w, r ++ t) := by
  match cs with
  | [] => simp [parseSigned, parseDigits, spanGroup] at h
  | c :: x =>
      by_cases hc : c = '-'
      · subst hc
        rw [parseSigned_cons_dash] at h
        cases hq : parseDigits x with
        | none => rw [hq] at h; exact absurd h (by simp)
        | some q =>
            rw [hq] at h
            injection h with h
            injection h with h1 h2
            have happ : parseDigits (x ++ t) = some (q.1, q.2 ++ t) := by
              have hq2 : spanGroup isDigitChar x = some (q.1, q.2) := by
                rw [show (q.1, q.2) = q from rfl, ← hq]; rfl
              exact spanGroup_app t hq2 (by rw [h2]; exact hside)
            rw [List.cons_append, parseSigned_cons_dash, happ, ← h1, ← h2]
      · rw [parseSigned_cons_ne hc] at h
        rw [List.cons_append, parseSigned_cons_ne hc, ← List.cons_append]
        exact spanGroup_app t h hside

theorem reMatchR_inv {cs : List Char} {g : MatchGroups} {rest : List Char}
    (h : reMatchR cs = some (g, rest)) :
    ∃ s1 s2 p1r s4 p2r s6 p3r s8 p4r s10,
      parseToken cs = some s1 ∧
      expectChar '(' (dropSpaces s1) = some s2 ∧
      parseWord (dropSpaces s2) = some (g.name, p1r) ∧
      expectChar ',' (dropSpaces p1r) = some s4 ∧
      parseDigits (dropSpaces s4) = some (g.size, p2r) ∧
      expectChar ',' (dropSpaces p2r) = some s6 ∧
      parseSigned (dropSpaces s6) = some (g.npop, p3r) ∧
      expectChar ',' (dropSpaces p3r) = some s8 ∧
      parseSigned (dropSpaces s8) = some (g.npush, p4r) ∧
      expectChar ',' (dropSpaces p4r) = some s10 ∧
      parseWord (dropSpaces s10) = some (g.fmt, rest) := by
  unfold reMatchR at h
  simp only [Option.bind_eq_some] at h
  obtain ⟨s1, h1, s2, h2, p1, h3, s4, h4, p2, h5, s6, h6, p3, h7, s8, h8, p4, h9,
    s10, h10, p5, h11, hfin⟩ := h
  injection hfin with hfin
  injection hfin with hg hrest
  subst hg
  subst hrest
  exact ⟨s1, s2, p1.2, s4, p2.2, s6, p3.2, s8, p4.2, s10,
    h1, h2, h3, h4, h5, h6, h7, h8, h9, h10, h11⟩

theorem reMatchR_app {cs t : List Char} {g : MatchGroups} {rest : List Char}
    (h : reMatchR cs = some (g, rest))
    (hside : rest ≠ [] ∨ t.takeWhile isWordChar = []) :
    reMatchR (cs ++ t) = some (g, rest ++ t) := by
  obtain ⟨s1, s2, p1r, s4, p2r, s6, p3r, s8, p4r, s10,
    h1, h2, h3, h4, h5, h6, h7, h8, h9, h10, h11⟩ := reMatchR_inv h
  have d1 : dropSpaces (s1 ++ t) = dropSpaces s1 ++ t :=
    dropSpaces_app t (by rw [expectChar_inv h2]; simp)
  have d2 : dropSpaces (s2 ++ t) = dropSpaces s2 ++ t :=
    dropSpaces_app t (by
      intro e
      exact spanGroup_arg_ne_nil h3 (by simpa [dropSpaces] using e))
  have hp1r : p1r ≠ [] := ne_nil_of_dropSpaces_cons (expectChar_inv h4)
  have d3 : dropSpaces (p1r ++ t) = dropSpaces p1r ++ t :=
    dropSpaces_app t (by rw [expectChar_inv h4]; simp)
  have d4 : dropSpaces (s4 ++ t) = dropSpaces s4 ++ t :=
    dropSpaces_app t (by
      intro e
      exact spanGroup_arg_ne_nil h5 (by simpa [dropSpaces] using e))
  have hp2r : p2r ≠ [] := ne_nil_of_dropSpaces_cons (expectChar_inv h6)
  have d5 : dropSpaces (p2r ++ t) = dropSpaces p2r ++ t :=
    dropSpaces_app t (by rw [expectChar_inv h6]; simp)
  have hs6ne : dropSpaces s6 ≠ [] := by
    intro e
    rw [e] at h7
    simp [parseSigned, parseDigits, spanGroup] at h7
  have d6 : dropSpaces (s6 ++ t) = dropSpaces s6 ++ t := dropSpaces_app t hs6ne
  have hp3r : p3r ≠ [] := ne_nil_of_dropSpaces_cons (expectChar_inv h8)
  have d7 : dropSpaces (p3r ++ t) = dropSpaces p3r ++ t :=
    dropSpaces_app t (by rw [expectChar_inv h8]; simp)
  have hs8ne : dropSpaces s8 ≠ [] := by
    intro e
    rw [e] at h9
    simp [parseSigned, parseDigits, spanGroup] at h9
  have d8 : dropSpaces (s8 ++ t) = dropSpaces s8 ++ t := dropSpaces_app t hs8ne
  have hp4r : p4r ≠ [] := ne_nil_of_dropSpaces_cons (expectChar_inv h10)
  have d9 : dropSpaces (p4r ++ t) = dropSpaces p4r ++ t :=
    dropSpaces_app t (by rw [expectChar_inv h10]; simp)
  have d10 : dropSpaces (s10 ++ t) = dropSpaces s10 ++ t :=
    dropSpaces_app t (by
      intro e
      exact spanGroup_arg_ne_nil h11 (by simpa [dropSpaces] using e))
  have e1 : parseToken (cs ++ t) = some (s1 ++ t) := parseToken_app t h1
  have e2 : expectChar '(' (dropSpaces s1 ++ t) = some (s2 ++ t) := expectChar_app t h2
  have e3 : parseWord (dropSpaces s2 ++ t) = some (g.name, p1r ++ t) :=
    spanGroup_app t h3 (Or.inl hp1r)
  have e4 : expectChar ',' (dropSpaces p1r ++ t) = some (s4 ++ t) := expectChar_app t h4
  have e5 : parseDigits (dropSpaces s4 ++ t) = some (g.size, p2r ++ t) :=
    spanGroup_app t h5 (Or.inl hp2r)
  have e6 : expectChar ',' (dropSpaces p2r ++ t) = some (s6 ++ t) := expectChar_app t h6
  have e7 : parseSigned (dropSpaces s6 ++ t) = some (g.npop, p3r ++ t) :=
    parseSigned_app t h7 (Or.inl hp3r)
  have e8 : expectChar ',' (dropSpaces p3r ++ t) = some (s8 ++ t) := expectChar_app t h8
  have e9 : parseSigned (dropSpaces s8 ++ t) = some (g.npush, p4r ++ t) :=
    parseSigned_app t h9 (Or.inl hp4r)
  have e10 : expectChar ',' (dropSpaces p4r ++ t) = some (s10 ++ t) := expectChar_app t h10
  have e11 : parseWord (dropSpaces s10 ++ t) = some (g.fmt, rest ++ t) :=
    spanGroup_app t h11 hside
  unfold reMatchR
  simp only [e1, Option.some_bind, d1, e2, d2, e3, d3, e4, d4, e5, d5, e6, d6, e7,
    d7, e8, d8, e9, d9, e10, d10, e11]

/-! ### Character classes of the captured groups -/

theorem reMatchR_classes {cs : List Char} {g : MatchGroups} {rest : List Char}
    (h : reMatchR cs = some (g, rest)) :
    ((∀ c ∈ g.name, isWordChar c = true) ∧ g.name ≠ []) ∧
    ((∀ c ∈ g.size, isDigitChar c = true) ∧ g.size ≠ []) ∧
    ((∀ c ∈ g.npop, c = '-' ∨ isDigitChar c = true) ∧ g.npop ≠ []) ∧
    ((∀ c ∈ g.npush, c = '-' ∨ isDigitChar c = true) ∧ g.npush ≠ []) ∧
    ((∀ c ∈ g.fmt, isWordChar c = true) ∧ g.fmt ≠ []) := by
  obtain ⟨s1, s2, p1r, s4, p2r, s6, p3r, s8, p4r, s10,
    h1, h2, h3, h4, h5, h6, h7, h8, h9, h10, h11⟩ := reMatchR_inv h
  refine ⟨⟨spanGroup_mem h3, (spanGroup_inv h3).2.2⟩,
    ⟨spanGroup_mem h5, (spanGroup_inv h5).2.2⟩, ?_, ?_,
    ⟨spanGroup_mem h11, (spanGroup_inv h11).2.2⟩⟩
  · have := parseSigned_inv h7
    exact ⟨this.2, this.1⟩
  · have := parseSigned_inv h9
    exact ⟨this.2, this.1⟩

theorem lineMatch_inv {l : List Char} {g : MatchGroups} (h : lineMatch l = some g) :
    ∃ rest, reMatchR (pyStrip l) = some (g, rest) := by
  unfold lineMatch at h
  cases hr : reMatchR (pyStrip l) with
  | none => rw [hr] at h; simp at h
  | some pr =>
      rw [hr] at h
      injection h with h
      exact ⟨pr.2, by rw [← h]⟩

theorem lineMatch_of_reMatchR {l : List Char} {g : MatchGroups} {rest : List Char}
    (h : reMatchR (pyStrip l) = some (g, rest)) : lineMatch l = some g := by
  unfold lineMatch
  rw [h]
  rfl

theorem lineMatch_classes {l : List Char} {g : MatchGroups} (h : lineMatch l = some g) :
    ((∀ c ∈ g.name, isWordChar c = true) ∧ g.name ≠ []) ∧
    ((∀ c ∈ g.size, isDigitChar c = true) ∧ g.size ≠ []) ∧
    ((∀ c ∈ g.npop, c = '-' ∨ isDigitChar c = true) ∧ g.npop ≠ []) ∧
    ((∀ c ∈ g.npush, c = '-' ∨ isDigitChar c = true) ∧ g.npush ≠ []) ∧
    ((∀ c ∈ g.fmt, isWordChar c = true) ∧ g.fmt ≠ []) := by
  obtain ⟨rest, hr⟩ := lineMatch_inv h
  exact reMatchR_classes hr

/-! ### The loop at the record level -/

theorem extractAux_eq (ls : List (List Char)) :
    ∀ i, extractAux i ls = (recordsAux i ls).map (fun p => formatRecord p.1 p.2) := by
  induction ls with
  | nil => intro i; rfl
  | cons l ls ih =>
      intro i
      cases hm : lineMatch l with
      | some g => simp [extractAux, recordsAux, hm, ih (i + 1)]
      | none => simp [extractAux, recordsAux, hm, ih i]

theorem recordsAux_fst (ls : List (List Char)) :
    ∀ i, (recordsAux i ls).map Prod.fst = List.range' i (ls.filterMap lineMatch).length := by
  induction ls with
  | nil => intro i; simp [recordsAux]
  | cons l ls ih =>
      intro i
      cases hm : lineMatch l with
      | some g =>
          simp [recordsAux, hm, List.filterMap_cons, ih (i + 1), List.range'_succ]
      | none =>
          simp [recordsAux, hm, List.filterMap_cons, ih i]

theorem recordsAux_snd (ls : List (List Char)) :
    ∀ i, (recordsAux i ls).map Prod.snd = ls.filterMap lineMatch := by
  induction ls with
  | nil => intro i; simp [recordsAux]
  | cons l ls ih =>
      intro i
      cases hm : lineMatch l with
      | some g => simp [recordsAux, hm, List.filterMap_cons, ih (i + 1)]
      | none => simp [recordsAux, hm, List.filterMap_cons, ih i]

/-! ### Rendering lemmas -/

theorem decChar_digit (m : Nat) (h : m < 10) : isDigitChar (decChar m) = true := by
  interval_cases m <;> decide

theorem hexChar_upper (m : Nat) (h : m < 16) : isUpperHexDigit (hexChar m) = true := by
  interval_cases m <;> decide

theorem hexVal_hexChar (m : Nat) (h : m < 16) : hexVal (hexChar m) = m := by
  interval_cases m <;> decide

theorem natDecAux_digits : ∀ f n, n < f → ∀ c ∈ natDecAux f n, isDigitChar c = true := by
  intro f
  induction f with
  | zero => intro n hn; exact absurd hn (by omega)
  | succ f ih =>
      intro n hn c hc
      rw [natDecAux] at hc
      split at hc
      · rename_i h10
        simp only [List.mem_singleton] at hc
        subst hc
        exact decChar_digit n h10
      · rename_i h10
        rw [List.mem_append] at hc
        rcases hc with hc | hc
        · have hdiv : n / 10 < f := by
            have := Nat.div_lt_self (show 0 < n by omega) (show 1 < 10 by omega)
            omega
          exact ih (n / 10) hdiv c hc
        · simp only [List.mem_singleton] at hc
          subst hc
          exact decChar_digit (n % 10) (Nat.mod_lt n (by omega))

theorem natHexAux_upper : ∀ f n, n < f → ∀ c ∈ natHexAux f n, isUpperHexDigit c = true := by
  intro f
  induction f with
  | zero => intro n hn; exact absurd hn (by omega)
  | succ f ih =>
      intro n hn c hc
      rw [natHexAux] at hc
      split at hc
      · rename_i h16
        simp only [List.mem_singleton] at hc
        subst hc
        exact hexChar_upper n h16
      · rename_i h16
        rw [List.mem_append] at hc
        rcases hc with hc | hc
        · have hdiv : n / 16 < f := by
            have := Nat.div_lt_self (show 0 < n by omega) (show 1 < 16 by omega)
            omega
          exact ih (n / 16) hdiv c hc
        · simp only [List.mem_singleton] at hc
          subst hc
          exact hexChar_upper (n % 16) (Nat.mod_lt n (by omega))

theorem natHexAux_ne_nil : ∀ f n, n < f → natHexAux f n ≠ [] := by
  intro f
  cases f with
  | zero => intro n hn; exact absurd hn (by omega)
  | succ f =>
      intro n hn
      rw [natHexAux]
      split
      · simp
      · simp

theorem fromHex_append_one (l : List Char) (c : Char) :
    fromHex (l ++ [c]) = 16 * fromHex l + hexVal c := by
  simp [fromHex, List.foldl_append]

theorem fromHex_natHexAux : ∀ f n, n < f → fromHex (natHexAux f n) = n := by
  intro f
  induction f with
  | zero => intro n hn; exact absurd hn (by omega)
  | succ f ih =>
      intro n hn
      rw [natHexAux]
      split
      · rename_i h16
        show fromHex [hexChar n] = n
        simp [fromHex, hexVal_hexChar n h16]
      · rename_i h16
        have hdiv : n / 16 < f := by
          have := Nat.div_lt_self (show 0 < n by omega) (show 1 < 16 by omega)
          omega
        rw [fromHex_append_one, ih (n / 16) hdiv,
          hexVal_hexChar (n % 16) (Nat.mod_lt n (by omega))]
        exact Nat.div_add_mod n 16

theorem natHexAux_eq_one : ∀ f n, n < f → n < 16 → natHexAux f n = [hexChar n] := by
  intro f n hn h16
  cases f with
  | zero => exact absurd hn (by omega)
  | succ f => rw [natHexAux, if_pos h16]

theorem natHexAux_len_ge2 : ∀ f n, n < f → 16 ≤ n → 2 ≤ (natHexAux f n).length := by
  intro f n hn h16
  cases f with
  | zero => exact absurd hn (by omega)
  | succ f =>
      rw [natHexAux, if_neg (by omega)]
      rw [List.length_append]
      have hdiv : n / 16 < f := by
        have := Nat.div_lt_self (show 0 < n by omega) (show 1 < 16 by omega)
        omega
      have := List.length_pos.mpr (natHexAux_ne_nil f (n / 16) hdiv)
      simp
      omega

theorem natHexAux_len_eq2 : ∀ f n, n < f → 16 ≤ n → n < 256 → (natHexAux f n).length = 2 := by
  intro f n hn h16 h256
  cases f with
  | zero => exact absurd hn (by omega)
  | succ f =>
      rw [natHexAux, if_neg (by omega), List.length_append]
      have hdiv : n / 16 < f := by
        have := Nat.div_lt_self (show 0 < n by omega) (show 1 < 16 by omega)
        omega
      have hlt16 : n / 16 < 16 := by omega
      rw [natHexAux_eq_one f (n / 16) hdiv hlt16]
      simp

theorem natHexAux_len_ge3 : ∀ f n, n < f → 256 ≤ n → 3 ≤ (natHexAux f n).length := by
  intro f n hn h256
  cases f with
  | zero => exact absurd hn (by omega)
  | succ f =>
      rw [natHexAux, if_neg (by omega), List.length_append]
      have hdiv : n / 16 < f := by
        have := Nat.div_lt_self (show 0 < n by omega) (show 1 < 16 by omega)
        omega
      have h16' : 16 ≤ n / 16 := by omega
      have := natHexAux_len_ge2 f (n / 16) hdiv h16'
      simp
      omega

theorem natHexF_ne_nil (n : Nat) : natHexF n ≠ [] :=
  natHexAux_ne_nil (n + 1) n (by omega)

theorem pad2_natHexF_len_eq2 (n : Nat) (h : n < 256) : (pad2 (natHexF n)).length = 2 := by
  unfold pad2
  by_cases h16 : n < 16
  · rw [show natHexF n = [hexChar n] from natHexAux_eq_one (n + 1) n (by omega) h16]
    simp
  · have hl : (natHexF n).length = 2 :=
      natHexAux_len_eq2 (n + 1) n (by omega) (by omega) h
    rw [hl, if_neg (by omega)]
    exact hl

theorem pad2_natHexF_len_gt2 (n : Nat) (h : 256 ≤ n) : 2 < (pad2 (natHexF n)).length := by
  have h3 : 3 ≤ (natHexF n).length := natHexAux_len_ge3 (n + 1) n (by omega) h
  unfold pad2
  rw [if_neg (by omega)]
  omega

theorem pad2_natHexF_upper (n : Nat) :
    ∀ c ∈ pad2 (natHexF n), isUpperHexDigit c = true := by
  intro c hc
  unfold pad2 at hc
  split at hc
  · rw [List.mem_append] at hc
    rcases hc with hc | hc
    · rw [List.eq_of_mem_replicate hc]
      decide
    · exact natHexAux_upper (n + 1) n (by omega) c hc
  · exact natHexAux_upper (n + 1) n (by omega) c hc

theorem fromHex_cons_zero (l : List Char) : fromHex ('0' :: l) = fromHex l := by
  show List.foldl (fun a c => 16 * a + hexVal c) 0 ('0' :: l)
      = List.foldl (fun a c => 16 * a + hexVal c) 0 l
  rw [List.foldl_cons]
  congr 1

theorem fromHex_pad2_natHexF (n : Nat) : fromHex (pad2 (natHexF n)) = n := by
  have hrt : fromHex (natHexF n) = n := fromHex_natHexAux (n + 1) n (by omega)
  unfold pad2
  split
  · rename_i hlen
    have hpos := List.length_pos.mpr (natHexF_ne_nil n)
    have h1 : (natHexF n).length = 1 := by omega
    rw [show 2 - (natHexF n).length = 1 from by omega]
    rw [show List.replicate 1 '0' = ['0'] from rfl, List.singleton_append,
      fromHex_cons_zero]
    exact hrt
  · exact hrt

/-! ### Tab-freeness and field decomposition of an output record -/

theorem tab_not_mem_natDec (n : Nat) : ('\t' : Char) ∉ natDec n := by
  intro hmem
  have := natDecAux_digits (n + 1) n (by omega) '\t' hmem
  simp [isDigitChar] at this

theorem tab_not_mem_pad2 (n : Nat) : ('\t' : Char) ∉ pad2 (natHexF n) := by
  intro hmem
  have := pad2_natHexF_upper n '\t' hmem
  simp [isUpperHexDigit] at this

theorem tab_not_mem_of_word {x : List Char} (hx : ∀ c ∈ x, isWordChar c = true) :
    ('\t' : Char) ∉ x := by
  intro hmem
  have := hx '\t' hmem
  simp [isWordChar] at this

theorem tab_not_mem_of_digit {x : List Char} (hx : ∀ c ∈ x, isDigitChar c = true) :
    ('\t' : Char) ∉ x := by
  intro hmem
  have := hx '\t' hmem
  simp [isDigitChar] at this

theorem tab_not_mem_of_signed {x : List Char}
    (hx : ∀ c ∈ x, c = '-' ∨ isDigitChar c = true) : ('\t' : Char) ∉ x := by
  intro hmem
  rcases hx '\t' hmem with h | h
  · exact absurd h (by decide)
  · simp [isDigitChar] at h

theorem tabFields_formatRecord (i : Nat) (g : MatchGroups)
    (hn : ('\t' : Char) ∉ g.name) (hs : ('\t' : Char) ∉ g.size)
    (hp : ('\t' : Char) ∉ g.npop) (hq : ('\t' : Char) ∉ g.npush)
    (hf : ('\t' : Char) ∉ g.fmt) :
    tabFields (formatRecord i g) =
      [natDec i,
       '0' :: 'x' :: pad2 (natHexF i),
       'O' :: 'P' :: '_' :: g.name,
       "size=".toList ++ g.size,
       "pop=".toList ++ g.npop,
       "push=".toList ++ g.npush,
       "fmt=".toList ++ g.fmt] := by
  have h2 : ('\t' : Char) ∉ '0' :: 'x' :: pad2 (natHexF i) := by
    intro hmem
    rcases List.mem_cons.mp hmem with h | h
    · exact absurd h (by decide)
    · rcases List.mem_cons.mp h with h | h
      · exact absurd h (by decide)
      · exact tab_not_mem_pad2 i h
  have h3 : ('\t' : Char) ∉ 'O' :: 'P' :: '_' :: g.name := by
    intro hmem
    rcases List.mem_cons.mp hmem with h | h
    · exact absurd h (by decide)
    · rcases List.mem_cons.mp h with h | h
      · exact absurd h (by decide)
      · rcases List.mem_cons.mp h with h | h
        · exact absurd h (by decide)
        · exact hn h
  have h4 : ('\t' : Char) ∉ "size=".toList ++ g.size := by
    intro hmem
    rcases List.mem_append.mp hmem with h | h
    · exact absurd h (by decide)
    · exact hs h
  have h5 : ('\t' : Char) ∉ "pop=".toList ++ g.npop := by
    intro hmem
    rcases List.mem_append.mp hmem with h | h
    · exact absurd h (by decide)
    · exact hp h
  have h6 : ('\t' : Char) ∉ "push=".toList ++ g.npush := by
    intro hmem
    rcases List.mem_append.mp hmem with h | h
    · exact absurd h (by decide)
    · exact hq h
  have h7 : ('\t' : Char) ∉ "fmt=".toList ++ g.fmt := by
    intro hmem
    rcases List.mem_append.mp hmem with h | h
    · exact absurd h (by decide)
    · exact hf h
  have hshape : formatRecord i g =
      natDec i ++ '\t' ::
      (('0' :: 'x' :: pad2 (natHexF i)) ++ '\t' ::
      (('O' :: 'P' :: '_' :: g.name) ++ '\t' ::
      (("size=".toList ++ g.size) ++ '\t' ::
      (("pop=".toList ++ g.npop) ++ '\t' ::
      (("push=".toList ++ g.npush) ++ '\t' ::
      ("fmt=".toList ++ g.fmt)))))) := by
    simp [formatRecord, List.append_assoc, List.cons_append]
  unfold tabFields
  rw [hshape,
    splitOnC_app '\t' _ _ (tab_not_mem_natDec i),
    splitOnC_app '\t' _ _ h2,
    splitOnC_app '\t' _ _ h3,
    splitOnC_app '\t' _ _ h4,
    splitOnC_app '\t' _ _ h5,
    splitOnC_app '\t' _ _ h6,
    splitOnC_not_mem '\t' _ h7]

/-! ### Token and strip bridge lemmas -/

theorem pyStrip_cons3 (a b c : Char) (s : List Char)
    (ha : isSpaceChar a = false) (hb : isSpaceChar b = false)
    (hc : isSpaceChar c = false) :
    pyStrip (a :: b :: c :: s) = a :: b :: c :: stripTrailing s := by
  rw [pyStrip_cons a _ ha, stripTrailing_cons b _ hb, stripTrailing_cons c _ hc]

theorem reMatchR_token_case (x : List Char) :
    reMatchR ('D' :: 'E' :: 'F' :: x) = reMatchR ('d' :: 'e' :: 'f' :: x) := by
  unfold reMatchR
  rw [show parseToken ('D' :: 'E' :: 'F' :: x) = some x from by simp [parseToken],
    show parseToken ('d' :: 'e' :: 'f' :: x) = some x from by simp [parseToken]]

theorem lineMatch_token_case (body : List Char) :
    lineMatch ('D' :: 'E' :: 'F' :: body) = lineMatch ('d' :: 'e' :: 'f' :: body) := by
  unfold lineMatch
  rw [pyStrip_cons3 _ _ _ body (by decide) (by decide) (by decide),
    pyStrip_cons3 _ _ _ body (by decide) (by decide) (by decide),
    reMatchR_token_case]

theorem reMatchR_none_head {c : Char} (x : List Char) (hD : c ≠ 'D') (hd : c ≠ 'd') :
    reMatchR (c :: x) = none := by
  have htok : parseToken (c :: x) = none := by
    cases x with
    | nil => rfl
    | cons c2 r2 =>
        cases r2 with
        | nil => rfl
        | cons c3 r3 =>
            simp only [parseToken]
            rw [if_neg]
            rintro (⟨hc, -, -⟩ | ⟨hc, -, -⟩)
            · exact hD hc
            · exact hd hc
  unfold reMatchR
  rw [htok]
  rfl

theorem lineMatch_none_of_token3 (c1 c2 c3 : Char) (s : List Char)
    (h1 : isSpaceChar c1 = false) (h2 : isSpaceChar c2 = false)
    (h3 : isSpaceChar c3 = false)
    (hbad : ¬((c1 = 'D' ∧ c2 = 'E' ∧ c3 = 'F') ∨ (c1 = 'd' ∧ c2 = 'e' ∧ c3 = 'f'))) :
    lineMatch (c1 :: c2 :: c3 :: s) = none := by
  unfold lineMatch
  rw [pyStrip_cons3 c1 c2 c3 s h1 h2 h3]
  have htok : parseToken (c1 :: c2 :: c3 :: stripTrailing s) = none := by
    simp only [parseToken]
    rw [if_neg hbad]
  unfold reMatchR
  rw [htok]
  rfl

theorem firstField_formatRecord (i : Nat) (g : MatchGroups) :
    (tabFields (formatRecord i g)).headD [] = natDec i := by
  unfold tabFields formatRecord
  rw [splitOnC_app '\t' _ _ (tab_not_mem_natDec i)]
  rfl

/-! ### The claims -/

/-- C1: for every input text, the emitted `index` values (first field of each
output record) are exactly `0, 1, ..., k-1` where `k` is the number of lines
matching the grammar, and the i-th emitted record pairs index `i` with the
i-th matching line's captured groups in input order: the counter is strictly
increasing with no gaps and advances only on a successful match. -/
theorem C1_index_sequence (input : List Char) :
    (extractOpcodes input).map (fun rec => (tabFields rec).headD [])
      = (List.range (((splitOnC '\n' input).filterMap lineMatch).length)).map natDec
    ∧ records input
      = List.zip (List.range (((splitOnC '\n' input).filterMap lineMatch).length))
          ((splitOnC '\n' input).filterMap lineMatch) := by
  constructor
  · show (extractAux 0 (splitOnC '\n' input)).map _ = _
    rw [extractAux_eq (splitOnC '\n' input) 0, List.map_map]
    have hcomp : ((fun rec => (tabFields rec).headD [])
        ∘ fun p : Nat × MatchGroups => formatRecord p.1 p.2)
        = fun p : Nat × MatchGroups => natDec p.1 :=
      funext fun p => firstField_formatRecord p.1 p.2
    rw [hcomp,
      show (fun p : Nat × MatchGroups => natDec p.1) = natDec ∘ Prod.fst from rfl,
      ← List.map_map, recordsAux_fst (splitOnC '\n' input) 0, List.range_eq_range']
  · show recordsAux 0 (splitOnC '\n' input) = _
    conv_lhs => rw [← zip_fst_snd (recordsAux 0 (splitOnC '\n' input))]
    rw [recordsAux_fst (splitOnC '\n' input) 0,
      recordsAux_snd (splitOnC '\n' input) 0, List.range_eq_range']

/-- C2: on the input whose only line is `DEF(push_i32, 5, 0, 1, i32)` the
script emits exactly the single record
`0 TAB 0x00 TAB OP_push_i32 TAB size=5 TAB pop=0 TAB push=1 TAB fmt=i32`;
and in general the third field of an emitted record is the captured name
prefixed with the fixed literal tag `OP_`, whatever the raw name is. -/
theorem C2_scenario_a :
    extractOpcodes ("DEF(push_i32, 5, 0, 1, i32)").toList
      = [("0\t0x00\tOP_push_i32\tsize=5\tpop=0\tpush=1\tfmt=i32").toList]
    ∧ ∀ (i : Nat) (l : List Char) (g : MatchGroups), lineMatch l = some g →
        (tabFields (formatRecord i g)).get? 2 = some ('O' :: 'P' :: '_' :: g.name) := by
  constructor
  · decide
  · intro i l g h
    obtain ⟨⟨hw, -⟩, ⟨hdg, -⟩, ⟨hs1, -⟩, ⟨hs2, -⟩, ⟨hfw, -⟩⟩ := lineMatch_classes h
    rw [tabFields_formatRecord i g (tab_not_mem_of_word hw) (tab_not_mem_of_digit hdg)
      (tab_not_mem_of_signed hs1) (tab_not_mem_of_signed hs2) (tab_not_mem_of_word hfw)]
    rfl

/-- Witness for C2: the general clause evaluated at the concretely matched
line `DEF(a, 1, 2, 3, b)` with counter value 3. -/
theorem C2_scenario_a_witness :
    (tabFields (formatRecord 3 (MatchGroups.mk ['a'] ['1'] ['2'] ['3'] ['b']))).get? 2
      = some ('O' :: 'P' :: '_' :: ['a']) :=
  C2_scenario_a.2 3 (("DEF(a, 1, 2, 3, b)").toList)
    (MatchGroups.mk ['a'] ['1'] ['2'] ['3'] ['b']) (by decide)

/-- C4: a line that does not conform to the grammar — empty, a comment line,
a line with only four comma-separated arguments, a line with a malformed
integer — emits nothing and leaves the running counter unchanged (the skip is
silent: the processing functions are total, so no error is possible). -/
theorem C4_skip_non_match :
    (∀ (i : Nat) (l : List Char) (ls : List (List Char)), lineMatch l = none →
        extractAux i (l :: ls) = extractAux i ls
        ∧ recordsAux i (l :: ls) = recordsAux i ls)
    ∧ lineMatch ([] : List Char) = none
    ∧ lineMatch ("// DEF(foo, 1, 0, 0, none)").toList = none
    ∧ lineMatch ("DEF(a, 1, 2, 3)").toList = none
    ∧ lineMatch ("DEF(a, 1x, 2, 3, b)").toList = none := by
  refine ⟨?_, by decide, by decide, by decide, by decide⟩
  intro i l ls h
  constructor
  · simp [extractAux, h]
  · simp [recordsAux, h]

/-- Witness for C4: skipping the concrete comment line
`// DEF(foo, 1, 0, 0, none)` in front of a matching line changes neither the
output nor the records, at counter value 5. -/
theorem C4_skip_non_match_witness :
    extractAux 5 (("// DEF(foo, 1, 0, 0, none)").toList :: [("def(a, 1, 2, 3, b)").toList])
      = extractAux 5 [("def(a, 1, 2, 3, b)").toList]
    ∧ recordsAux 5 (("// DEF(foo, 1, 0, 0, none)").toList :: [("def(a, 1, 2, 3, b)").toList])
      = recordsAux 5 [("def(a, 1, 2, 3, b)").toList] :=
  C4_skip_non_match.1 5 (("// DEF(foo, 1, 0, 0, none)").toList)
    [("def(a, 1, 2, 3, b)").toList] (by decide)

/-- C5 counterexample: the claim asserts that a negative size field can
match, but the size group of the source pattern is an unsigned `\d+`: the
line `DEF(neg, -5, 0, 1, i32)` does not match and produces no record. -/
theorem C5_counterexample :
    lineMatch ("DEF(neg, -5, 0, 1, i32)").toList = none
    ∧ extractOpcodes ("DEF(neg, -5, 0, 1, i32)").toList = [] := by
  constructor
  · decide
  · decide

/-- C5 amended: the size field cannot be negative — every captured size is a
nonempty string of decimal digits only (no minus sign), and the same line
with the sign removed, `DEF(neg, 5, 0, 1, i32)`, does match. -/
theorem C5_size_unsigned :
    (∀ (l : List Char) (g : MatchGroups), lineMatch l = some g →
        g.size ≠ [] ∧ ∀ c ∈ g.size, isDigitChar c = true)
    ∧ lineMatch ("DEF(neg, 5, 0, 1, i32)").toList
      = some (MatchGroups.mk ("neg").toList ['5'] ['0'] ['1'] ("i32").toList) := by
  constructor
  · intro l g h
    have hd := (lineMatch_classes h).2.1
    exact ⟨hd.2, hd.1⟩
  · decide

/-- Witness for C5: the digits-only property of the captured size at the
concrete matching line `DEF(neg, 5, 0, 1, i32)`. -/
theorem C5_size_unsigned_witness :
    (MatchGroups.mk ("neg").toList ['5'] ['0'] ['1'] ("i32").toList).size ≠ []
    ∧ ∀ c ∈ (MatchGroups.mk ("neg").toList ['5'] ['0'] ['1'] ("i32").toList).size,
        isDigitChar c = true :=
  C5_size_unsigned.1 (("DEF(neg, 5, 0, 1, i32)").toList)
    (MatchGroups.mk ("neg").toList ['5'] ['0'] ['1'] ("i32").toList) (by decide)

/-- C3: the second field of every emitted record is the record's index
rendered `0x`-prefixed in uppercase hexadecimal, zero-padded to two digits
for indices 0-255 and rendered with more than two hex digits, without
truncation (the digits decode back to the index), for indices at least 256. -/
theorem C3_hex_field (input : List Char) (rec : List Char)
    (hrec : rec ∈ extractOpcodes input) :
    ∃ i g, (i, g) ∈ records input ∧ rec = formatRecord i g
      ∧ (tabFields rec).get? 0 = some (natDec i)
      ∧ (tabFields rec).get? 1 = some ('0' :: 'x' :: pad2 (natHexF i))
      ∧ (∀ c ∈ pad2 (natHexF i), isUpperHexDigit c = true)
      ∧ (i < 256 → (pad2 (natHexF i)).length = 2)
      ∧ (256 ≤ i → 2 < (pad2 (natHexF i)).length)
      ∧ fromHex (pad2 (natHexF i)) = i := by
  have hx : rec ∈ (recordsAux 0 (splitOnC '\n' input)).map
      (fun p => formatRecord p.1 p.2) := by
    rw [← extractAux_eq (splitOnC '\n' input) 0]
    exact hrec
  obtain ⟨p, hp, hfmt⟩ := List.mem_map.mp hx
  have hsnd : p.2 ∈ (splitOnC '\n' input).filterMap lineMatch := by
    rw [← recordsAux_snd (splitOnC '\n' input) 0]
    exact List.mem_map.mpr ⟨p, hp, rfl⟩
  obtain ⟨l, hl, hlm⟩ := List.mem_filterMap.mp hsnd
  obtain ⟨⟨hw, -⟩, ⟨hdg, -⟩, ⟨hs1, -⟩, ⟨hs2, -⟩, ⟨hfw, -⟩⟩ := lineMatch_classes hlm
  have htf := tabFields_formatRecord p.1 p.2 (tab_not_mem_of_word hw)
    (tab_not_mem_of_digit hdg) (tab_not_mem_of_signed hs1)
    (tab_not_mem_of_signed hs2) (tab_not_mem_of_word hfw)
  refine ⟨p.1, p.2, hp, hfmt.symm, ?_, ?_, pad2_natHexF_upper p.1,
    fun h => pad2_natHexF_len_eq2 p.1 h, fun h => pad2_natHexF_len_gt2 p.1 h,
    fromHex_pad2_natHexF p.1⟩
  · rw [← hfmt, htf]
    rfl
  · rw [← hfmt, htf]
    rfl

/-- Witness for C3: the hex-field properties instantiated at the one record
emitted for the input `DEF(a, 1, 2, 3, b)`. -/
theorem C3_hex_field_witness :
    ∃ i g, (i, g) ∈ records (("DEF(a, 1, 2, 3, b)").toList)
      ∧ ("0\t0x00\tOP_a\tsize=1\tpop=2\tpush=3\tfmt=b").toList = formatRecord i g
      ∧ (tabFields (("0\t0x00\tOP_a\tsize=1\tpop=2\tpush=3\tfmt=b").toList)).get? 0
          = some (natDec i)
      ∧ (tabFields (("0\t0x00\tOP_a\tsize=1\tpop=2\tpush=3\tfmt=b").toList)).get? 1
          = some ('0' :: 'x' :: pad2 (natHexF i))
      ∧ (∀ c ∈ pad2 (natHexF i), isUpperHexDigit c = true)
      ∧ (i < 256 → (pad2 (natHexF i)).length = 2)
      ∧ (256 ≤ i → 2 < (pad2 (natHexF i)).length)
      ∧ fromHex (pad2 (natHexF i)) = i :=
  C3_hex_field (("DEF(a, 1, 2, 3, b)").toList)
    (("0\t0x00\tOP_a\tsize=1\tpop=2\tpush=3\tfmt=b").toList) (by decide)

/-- C6: the match is anchored at the start of the stripped line but not at
its end: a successful match forces the stripped line to begin with `DEF` or
`def` (so a comment marker in front prevents any match), while appending
arbitrary text after the consumed prefix (in particular a closing parenthesis
and anything beyond) preserves the match and leaves the captured groups — and
hence the emitted record — unchanged. -/
theorem C6_anchoring :
    (∀ (cs : List Char) (g : MatchGroups) (rest : List Char),
        reMatchR cs = some (g, rest) →
        cs.take 3 = ['D', 'E', 'F'] ∨ cs.take 3 = ['d', 'e', 'f'])
    ∧ (∀ s : List Char, lineMatch ('/' :: s) = none)
    ∧ (∀ (cs t : List Char) (g : MatchGroups) (rest : List Char),
        reMatchR cs = some (g, rest) →
        rest ≠ [] ∨ t.takeWhile isWordChar = [] →
        reMatchR (cs ++ t) = some (g, rest ++ t)) := by
  refine ⟨?_, ?_, ?_⟩
  · intro cs g rest h
    obtain ⟨s1, s2, p1r, s4, p2r, s6, p3r, s8, p4r, s10, h1, -⟩ := reMatchR_inv h
    rcases parseToken_inv h1 with rfl | rfl
    · exact Or.inl rfl
    · exact Or.inr rfl
  · intro s
    unfold lineMatch
    rw [pyStrip_cons '/' s (by decide),
      reMatchR_none_head (stripTrailing s) (by decide) (by decide)]
    rfl
  · intro cs t g rest h hside
    exact reMatchR_app h hside

/-- Witness for C6: the three clauses at concrete inputs — a matched line
starts with the uppercase token; the comment line `// DEF(foo, 1, 0, 0, none)`
does not match; appending `) junk` after the consumed prefix of
`DEF(x, 1, 2, 3, y` keeps the same captured groups. -/
theorem C6_anchoring_witness :
    (("DEF(x, 1, 2, 3, y)").toList.take 3 = ['D', 'E', 'F']
      ∨ ("DEF(x, 1, 2, 3, y)").toList.take 3 = ['d', 'e', 'f'])
    ∧ lineMatch ('/' :: ("/ DEF(foo, 1, 0, 0, none)").toList) = none
    ∧ reMatchR (("DEF(x, 1, 2, 3, y").toList ++ (") junk").toList)
      = some (MatchGroups.mk ['x'] ['1'] ['2'] ['3'] ['y'], [] ++ (") junk").toList) :=
  ⟨C6_anchoring.1 (("DEF(x, 1, 2, 3, y)").toList)
      (MatchGroups.mk ['x'] ['1'] ['2'] ['3'] ['y']) [')'] (by decide),
   C6_anchoring.2.1 (("/ DEF(foo, 1, 0, 0, none)").toList),
   C6_anchoring.2.2 (("DEF(x, 1, 2, 3, y").toList) ((") junk").toList)
     (MatchGroups.mk ['x'] ['1'] ['2'] ['3'] ['y']) [] (by decide) (Or.inr (by decide))⟩

/-- C7: the uppercase token `DEF` and the lowercase token `def` are
interchangeable: a line body matches with one exactly as with the other,
yielding the same captured groups, and the loop emits identical output
either way (hence identical index, name, size, pop, push and format). -/
theorem C7_token_case_equiv :
    (∀ body : List Char,
        lineMatch ('D' :: 'E' :: 'F' :: body) = lineMatch ('d' :: 'e' :: 'f' :: body))
    ∧ ∀ (i : Nat) (body : List Char) (ls : List (List Char)),
        extractAux i (('D' :: 'E' :: 'F' :: body) :: ls)
          = extractAux i (('d' :: 'e' :: 'f' :: body) :: ls) := by
  refine ⟨lineMatch_token_case, ?_⟩
  intro i body ls
  simp only [extractAux, lineMatch_token_case body]

/-- C8: the size, pop, push and format fields of an emitted record are
character-for-character the captured substrings, with no renormalisation; in
particular a captured `-0` is emitted as `-0`. -/
theorem C8_field_fidelity :
    (∀ (l : List Char) (i : Nat) (g : MatchGroups), lineMatch l = some g →
        tabFields (formatRecord i g)
          = [natDec i, '0' :: 'x' :: pad2 (natHexF i), 'O' :: 'P' :: '_' :: g.name,
             "size=".toList ++ g.size, "pop=".toList ++ g.npop,
             "push=".toList ++ g.npush, "fmt=".toList ++ g.fmt])
    ∧ extractOpcodes (("DEF(a, 1, -0, -0, b)").toList)
      = [("0\t0x00\tOP_a\tsize=1\tpop=-0\tpush=-0\tfmt=b").toList] := by
  constructor
  · intro l i g h
    obtain ⟨⟨hw, -⟩, ⟨hdg, -⟩, ⟨hs1, -⟩, ⟨hs2, -⟩, ⟨hfw, -⟩⟩ := lineMatch_classes h
    exact tabFields_formatRecord i g (tab_not_mem_of_word hw)
      (tab_not_mem_of_digit hdg) (tab_not_mem_of_signed hs1)
      (tab_not_mem_of_signed hs2) (tab_not_mem_of_word hfw)
  · decide

/-- Witness for C8: the field decomposition of the record emitted at counter
0 for the concrete line `DEF(a, 1, -0, -0, b)`, whose captured pop and push
are the two-character string `-0`. -/
theorem C8_field_fidelity_witness :
    tabFields (formatRecord 0 (MatchGroups.mk ['a'] ['1'] ['-', '0'] ['-', '0'] ['b']))
      = [natDec 0, '0' :: 'x' :: pad2 (natHexF 0), 'O' :: 'P' :: '_' :: ['a'],
         "size=".toList ++ ['1'], "pop=".toList ++ ['-', '0'],
         "push=".toList ++ ['-', '0'], "fmt=".toList ++ ['b']] :=
  C8_field_fidelity.1 (("DEF(a, 1, -0, -0, b)").toList) 0
    (MatchGroups.mk ['a'] ['1'] ['-', '0'] ['-', '0'] ['b']) (by decide)

/-- C9: the run fails exactly when the input source cannot be opened or read
(modelled as the `none` input), in which case no output is produced; the
matching and formatting steps are total functions and cannot fail, and the
empty input yields a successful run with zero output lines. -/
theorem C9_failure_model :
    (∀ o : Option (List Char), runProgram o = RunOutcome.ioFailure ↔ o = none)
    ∧ runProgram (some []) = RunOutcome.success []
    ∧ (∀ contents : List Char,
        runProgram (some contents) = RunOutcome.success (extractOpcodes contents)) := by
  refine ⟨?_, ?_, fun contents => rfl⟩
  · intro o
    cases o with
    | none => simp [runProgram]
    | some c => simp [runProgram]
  · decide

/-- Witness for C9: the unopenable-input run is exactly the failing one. -/
theorem C9_failure_model_witness : runProgram none = RunOutcome.ioFailure :=
  (C9_failure_model.1 none).mpr rfl

theorem extractAux_skip {l : List Char} (h : lineMatch l = none) (i : Nat)
    (ls : List (List Char)) : extractAux i (l :: ls) = extractAux i ls := by
  simp [extractAux, h]

/-- C10: only the two exact case variants of the macro token match: each of
the six mixed-case variants of the token (`DEf`, `DeF`, `Def`, `dEF`, `dEf`,
`deF`), however the line continues, matches nothing, emits nothing and
leaves the running counter unchanged. -/
theorem C10_mixed_case_rejected :
    (∀ (s : List Char) (i : Nat) (ls : List (List Char)),
        lineMatch ('D' :: 'E' :: 'f' :: s) = none
        ∧ extractAux i (('D' :: 'E' :: 'f' :: s) :: ls) = extractAux i ls)
    ∧ (∀ (s : List Char) (i : Nat) (ls : List (List Char)),
        lineMatch ('D' :: 'e' :: 'F' :: s) = none
        ∧ extractAux i (('D' :: 'e' :: 'F' :: s) :: ls) = extractAux i ls)
    ∧ (∀ (s : List Char) (i : Nat) (ls : List (List Char)),
        lineMatch ('D' :: 'e' :: 'f' :: s) = none
        ∧ extractAux i (('D' :: 'e' :: 'f' :: s) :: ls) = extractAux i ls)
    ∧ (∀ (s : List Char) (i : Nat) (ls : List (List Char)),
        lineMatch ('d' :: 'E' :: 'F' :: s) = none
        ∧ extractAux i (('d' :: 'E' :: 'F' :: s) :: ls) = extractAux i ls)
    ∧ (∀ (s : List Char) (i : Nat) (ls : List (List Char)),
        lineMatch ('d' :: 'E' :: 'f' :: s) = none
        ∧ extractAux i (('d' :: 'E' :: 'f' :: s) :: ls) = extractAux i ls)
    ∧ (∀ (s : List Char) (i : Nat) (ls : List (List Char)),
        lineMatch ('d' :: 'e' :: 'F' :: s) = none
        ∧ extractAux i (('d' :: 'e' :: 'F' :: s) :: ls) = extractAux i ls) := by
  refine ⟨fun s i ls => ?_, fun s i ls => ?_, fun s i ls => ?_,
    fun s i ls => ?_, fun s i ls => ?_, fun s i ls => ?_⟩
  · have h := lineMatch_none_of_token3 'D' 'E' 'f' s (by decide) (by decide)
      (by decide) (by decide)
    exact ⟨h, extractAux_skip h i ls⟩
  · have h := lineMatch_none_of_token3 'D' 'e' 'F' s (by decide) (by decide)
      (by decide) (by decide)
    exact ⟨h, extractAux_skip h i ls⟩
  · have h := lineMatch_none_of_token3 'D' 'e' 'f' s (by decide) (by decide)
      (by decide) (by decide)
    exact ⟨h, extractAux_skip h i ls⟩
  · have h := lineMatch_none_of_token3 'd' 'E' 'F' s (by decide) (by decide)
      (by decide) (by decide)
    exact ⟨h, extractAux_skip h i ls⟩
  · have h := lineMatch_none_of_token3 'd' 'E' 'f' s (by decide) (by decide)
      (by decide) (by decide)
    exact ⟨h, extractAux_skip h i ls⟩
  · have h := lineMatch_none_of_token3 'd' 'e' 'F' s (by decide) (by decide)
      (by decide) (by decide)
    exact ⟨h, extractAux_skip h i ls⟩
